import Mathlib

set_option maxRecDepth 100000

/-!
Verification of the chunking / vector-storage / similarity-search subsystem of
the PowerPointMakerDDB repository, embedded shallowly in Lean.

The embedding covers:
* `PDFService.chunk_text` (src/src/service/pdf_service.py, lines 59-95),
  including the CPython `int > float` comparison `break_point > chunk_size * 0.7`
  modelled exactly in binary64 arithmetic;
* the persistence step of `PDFService.process_pdfs` (lines 170-178) and
  `PDFService.load_vectors` (lines 190-205), with `pickle` modelled as a
  structural object encoding and the file as an optional blob;
* `WorkflowService.search_topics` of the flat layout
  (src/src/service/workflow_service.py, lines 49-73) together with the method
  table of the flat `PDFService` class;
* the similarity-search routine of the packaged service, whose source file is
  absent from the snapshot and is therefore modelled from the spec.

The chunking loop is modelled with explicit fuel: `none` for every fuel value
means the Python loop runs forever.
-/

/-! ### CPython float semantics of `chunk_size * 0.7` -/

/-- Numerator of the IEEE-754 binary64 value nearest to 0.7: the Python literal
`0.7` denotes exactly `3152519739159347 / 2^52`. -/
def d07num : ℕ := 3152519739159347

/-- Fuel-driven floor-log2: count how many doublings of `p` stay at or below
`N`. Written with a small fuel literal so the kernel can evaluate it. -/
def log2go : ℕ → ℕ → ℕ → ℕ
  | 0, _, _ => 0
  | f + 1, p, N => if p * 2 ≤ N then log2go f (p * 2) N + 1 else 0

/-- Floor of log2, correct for every `N < 2^1101` (far beyond the binary64
overflow threshold `2^1024`, past which CPython raises before comparing). -/
def log2b (N : ℕ) : ℕ := log2go 1100 1 N

/-- Round the positive value `N / 2^52` to 53 significant bits, nearest, ties
to even, returning the rounded numerator (still over `2^52`): the binary64
result of a product whose exact value is `N / 2^52`. A value of at most 53
significant bits is already representable and kept exactly. -/
def roundProdN (N : ℕ) : ℕ :=
  let L := log2b N
  if L ≤ 52 then N
  else
    let s := L - 52
    let q := N / 2 ^ s
    let r := N % 2 ^ s
    let h := 2 ^ (s - 1)
    let n := if h < r then q + 1 else if r < h then q else if q % 2 = 0 then q else q + 1
    n * 2 ^ s

/-- Numerator over `2^52` of the CPython expression `chunk_size * 0.7`: the
integer is converted to binary64 (exact for `|cs| < 2^53`, which covers every
chunk size a CPython string can realise in this code path) and multiplied by
the double `0.7`, with one round-to-nearest-even. -/
def mul07num (cs : ℤ) : ℤ :=
  (if cs < 0 then -1 else 1) * (roundProdN (cs.natAbs * d07num) : ℤ)

/-- The CPython comparison `break_point > chunk_size * 0.7`: an exact integer
against a binary64 value, compared without further rounding, stated here by
cross-multiplying with the denominator `2^52`. -/
def bpGt07 (bp cs : ℤ) : Bool :=
  decide (mul07num cs < bp * 2 ^ (52 : ℕ))

/-- Sanity: `10 * 0.7` rounds to exactly `7.0` in binary64 (ties-to-even), as
CPython confirms, so `break_point = 7` fails the test `7 > 10 * 0.7`. -/
theorem mul07num_ten : mul07num 10 = 7 * 2 ^ (52 : ℕ) ∧ bpGt07 7 10 = false := by decide

/-- Sanity: `100 * 0.7` rounds to exactly `70.0` in binary64. -/
theorem mul07num_hundred : mul07num 100 = 70 * 2 ^ (52 : ℕ) := by decide

/-- Sanity: `90 * 0.7` rounds strictly below `63`, so at chunk size 90 a
boundary at exactly 70% does pass the test `63 > 90 * 0.7`. -/
theorem mul07num_ninety : mul07num 90 < 63 * 2 ^ (52 : ℕ) ∧ bpGt07 63 90 = true := by decide

/-- Sanity: `1 * 0.7` is the double `0.7` itself. -/
theorem mul07num_one : mul07num 1 = (d07num : ℤ) := by decide

/-! ### Python string primitives -/

/-- Adjusted slice bound: Python resolves a slice index `i` against length `n`
by adding `n` to a negative index and clamping into `[0, n]`. -/
def pyIdx (n : ℕ) (i : ℤ) : ℕ :=
  if i < 0 then (max (i + n) 0).toNat else min i.toNat n

/-- Python slice `s[i:j]` on a character list. -/
def pySlice (l : List Char) (i j : ℤ) : List Char :=
  (l.take (pyIdx l.length j)).drop (pyIdx l.length i)

/-- Python `str.rfind(c)` for a single character: the highest index holding
`c`, or `-1` when absent. -/
def rfind (c : Char) : List Char → ℤ
  | [] => -1
  | x :: xs =>
    let r := rfind c xs
    if 0 ≤ r then r + 1 else if x = c then 0 else -1

/-- ASCII whitespace stripped by Python `str.strip()` (the texts this code
handles are ASCII; the non-ASCII Unicode whitespace cases do not arise). -/
def isPyWS (c : Char) : Bool :=
  c = ' ' || c = '\t' || c = '\n' || c = '\x0d' || c = '\x0b' || c = '\x0c'

/-- Python `str.strip()`: drop leading and trailing whitespace. -/
def pyStrip (l : List Char) : List Char :=
  ((l.dropWhile isPyWS).reverse.dropWhile isPyWS).reverse

/-! ### The chunker (`PDFService.chunk_text`, pdf_service.py lines 59-95) -/

/-- One iteration of the `while start < len(text)` loop body of `chunk_text`:
take the window `text[start : start + chunk_size]`; if it does not reach the
end of the text, find the last period or newline, and when its position
exceeds `chunk_size * 0.7` (binary64 comparison) truncate the chunk at the
boundary inclusive and move the effective end to `start + break_point + 1`;
emit the stripped chunk and advance the cursor to `end - overlap`. Returns
the emitted chunk and the new cursor. -/
def chunkStep (text : List Char) (cs ov start : ℤ) : List Char × ℤ :=
  let en := start + cs
  let chunk := pySlice text start en
  if en < (text.length : ℤ) then
    let bp := max (rfind '.' chunk) (rfind '\n' chunk)
    if bpGt07 bp cs then
      (pyStrip (pySlice chunk 0 (bp + 1)), start + bp + 1 - ov)
    else
      (pyStrip chunk, en - ov)
  else
    (pyStrip chunk, en - ov)

/-- The `chunk_text` loop with explicit fuel. `none` means the fuel ran out
with the loop still running; a result of `none` for every fuel value means the
Python loop never terminates. -/
def chunkGo (text : List Char) (cs ov : ℤ) : ℕ → ℤ → Option (List (List Char))
  | 0, s => if s < (text.length : ℤ) then none else some []
  | fuel + 1, s =>
    if s < (text.length : ℤ) then
      (chunkGo text cs ov fuel (chunkStep text cs ov s).2).map
        ((chunkStep text cs ov s).1 :: ·)
    else some []

/-- `PDFService.chunk_text(text, chunk_size, overlap)`: empty text returns the
empty list at once, otherwise the loop runs from cursor 0. -/
def chunk_text (text : List Char) (cs ov : ℤ) (fuel : ℕ) : Option (List (List Char)) :=
  if text.isEmpty then some [] else chunkGo text cs ov fuel 0

/-- Sanity: the docstring example shape — short text, no boundary, plain
overlapping windows. -/
theorem chunk_text_small_example :
    chunk_text ('a' :: 'b' :: []) 1 0 3 = some (('a' :: []) :: ('b' :: []) :: []) := by
  decide

/-! ### Nontermination of the chunking loop -/

/-- When one loop iteration leaves the cursor unchanged and the cursor still
satisfies the loop condition, the loop never finishes: the fuel-indexed run is
`none` for every fuel value. -/
theorem chunkGo_none_of_fix (text : List Char) (cs ov s : ℤ)
    (hs : s < (text.length : ℤ)) (hfix : (chunkStep text cs ov s).2 = s) :
    ∀ fuel, chunkGo text cs ov fuel s = none := by
  intro fuel
  induction fuel with
  | zero => simp [chunkGo, hs]
  | succ f ih =>
    simp only [chunkGo, hs, if_pos, hfix, ih, Option.map_none']

/-- Helper text for the overlap-equals-size hang: the two-character text `ab`. -/
def abText : List Char := 'a' :: 'b' :: []

/-- The text of the claimed nonterminating in-precondition input: 85 letters,
a period at index 85, then 300 boundary-free letters (length 386). -/
def c4Text : List Char := List.replicate 85 'a' ++ '.' :: List.replicate 300 'b'

/-- Claim C1: the spec requires `chunk` with `overlap >= size` to fail fast
with an `InputError`; the source `chunk_text` has no validation at all and, on
the in-range input `text = "ab"`, `chunk_size = 1`, `overlap = 1`, the cursor
advance `start = end - overlap` returns the cursor to 0 every iteration, so
the loop appends `"a"` forever: the run exhausts every fuel value and never
raises anything. -/
theorem chunk_text_overlap_eq_size_loops_forever :
    (chunkStep abText 1 1 0).2 = 0 ∧ ∀ fuel, chunk_text abText 1 1 fuel = none := by
  refine ⟨by decide, fun fuel => ?_⟩
  have h := chunkGo_none_of_fix abText 1 1 0 (by decide) (by decide)
  simpa [chunk_text, abText] using h fuel

/-- Claim C4: an input satisfying the spec's preconditions
(`chunkSize = 100 > 0`, `0 ≤ overlap = 80 < 100`) on which `chunk_text` never
terminates: the period at index 85 truncates the first window to end 86, the
cursor moves to 6, and from there every window's last boundary sits at
relative position 79 (beyond 70% of 100), so `end` stays 86 and the cursor is
stuck at `86 - 80 = 6` forever. -/
theorem chunk_text_nonterminating_in_precondition :
    ((0 : ℤ) < 100 ∧ (0 : ℤ) ≤ 80 ∧ (80 : ℤ) < 100) ∧ c4Text.length = 386 ∧
    (chunkStep c4Text 100 80 0).2 = 6 ∧ (chunkStep c4Text 100 80 6).2 = 6 ∧
    ∀ fuel, chunk_text c4Text 100 80 fuel = none := by
  refine ⟨by decide, by decide, by decide, by decide, fun fuel => ?_⟩
  have h6 := chunkGo_none_of_fix c4Text 100 80 6 (by decide) (by decide)
  cases fuel with
  | zero => decide
  | succ f =>
    have hstep : (chunkStep c4Text 100 80 0).2 = 6 := by decide
    have hne : c4Text.isEmpty = false := by decide
    have hlt : (0 : ℤ) < (c4Text.length : ℤ) := by decide
    simp only [chunk_text, hne, Bool.false_eq_true, if_false, chunkGo, hlt, if_pos,
      hstep, h6 f, Option.map_none']

/-! ### Structural lemmas about the string primitives -/

/-- Integer value of an adjusted slice bound. -/
theorem pyIdx_coe (n : ℕ) (i : ℤ) :
    (pyIdx n i : ℤ) = if i < 0 then max (i + n) 0 else min i n := by
  unfold pyIdx
  split
  · rw [Int.toNat_of_nonneg (le_max_right _ _)]
  · rename_i h
    rw [Nat.cast_min, Int.toNat_of_nonneg (not_lt.mp h)]

/-- A Python slice `s[i:j]` with `i ≤ j` has at most `j - i` characters. -/
theorem pySlice_length_le (l : List Char) (i j : ℤ) (hij : i ≤ j) :
    ((pySlice l i j).length : ℤ) ≤ j - i := by
  unfold pySlice
  have ha := pyIdx_coe l.length i
  have hb := pyIdx_coe l.length j
  simp only [List.length_drop, List.length_take]
  split_ifs at ha hb <;> omega

/-- A Python slice starting at 0 never exceeds the source string. -/
theorem pySlice_zero_length_le (l : List Char) (j : ℤ) :
    (pySlice l 0 j).length ≤ l.length := by
  unfold pySlice
  simp only [List.length_drop, List.length_take]
  omega

/-- A Python slice `s[0:j]` with `0 ≤ j` is a plain take. -/
theorem pySlice_zero_take (l : List Char) (j : ℤ) (hj : 0 ≤ j) :
    pySlice l 0 j = l.take j.toNat := by
  unfold pySlice pyIdx
  rw [if_neg (by omega), if_neg (by omega)]
  simp only [Int.toNat_zero, Nat.zero_min, List.drop_zero]
  rw [← List.take_take, List.take_length]

/-- `rfind` never returns anything below `-1`. -/
theorem rfind_ge_neg_one (c : Char) (l : List Char) : -1 ≤ rfind c l := by
  cases l with
  | nil => simp [rfind]
  | cons x xs =>
    simp only [rfind]
    split_ifs <;> omega

/-- Dropping a matching leading segment never lengthens a list. -/
theorem dropWhile_length_le (p : Char → Bool) (l : List Char) :
    (l.dropWhile p).length ≤ l.length := by
  induction l with
  | nil => simp
  | cons x xs ih =>
    rw [List.dropWhile_cons]
    split
    · exact Nat.le_succ_of_le ih
    · simp

/-- Stripping whitespace never lengthens a string. -/
theorem pyStrip_length_le (l : List Char) : (pyStrip l).length ≤ l.length := by
  unfold pyStrip
  calc ((l.dropWhile isPyWS).reverse.dropWhile isPyWS).reverse.length
      = ((l.dropWhile isPyWS).reverse.dropWhile isPyWS).length := List.length_reverse _
    _ ≤ (l.dropWhile isPyWS).reverse.length := dropWhile_length_le _ _
    _ = (l.dropWhile isPyWS).length := List.length_reverse _
    _ ≤ l.length := dropWhile_length_le _ _

/-- Every chunk emitted by one loop iteration has at most `chunk_size`
characters, for any cursor and any nonnegative `chunk_size`. -/
theorem chunkStep_fst_length_le (text : List Char) (cs ov s : ℤ) (hcs : 0 ≤ cs) :
    ((chunkStep text cs ov s).1.length : ℤ) ≤ cs := by
  have hwin : ((pySlice text s (s + cs)).length : ℤ) ≤ cs := by
    have := pySlice_length_le text s (s + cs) (by omega)
    omega
  unfold chunkStep
  dsimp only
  split_ifs
  · refine le_trans ?_ hwin
    have h1 := pyStrip_length_le
      (pySlice (pySlice text s (s + cs)) 0
        (max (rfind '.' (pySlice text s (s + cs))) (rfind '\n' (pySlice text s (s + cs))) + 1))
    have h2 := pySlice_zero_length_le (pySlice text s (s + cs))
      (max (rfind '.' (pySlice text s (s + cs))) (rfind '\n' (pySlice text s (s + cs))) + 1)
    exact_mod_cast le_trans h1 h2
  · refine le_trans ?_ hwin
    exact_mod_cast pyStrip_length_le (pySlice text s (s + cs))
  · refine le_trans ?_ hwin
    exact_mod_cast pyStrip_length_le (pySlice text s (s + cs))

/-- Invariant of the fuelled loop: when it terminates, every emitted chunk has
at most `chunk_size` characters (for nonnegative `chunk_size`), whatever the
cursor. -/
theorem chunkGo_length_le (text : List Char) (cs ov : ℤ) (hcs : 0 ≤ cs) :
    ∀ fuel (s : ℤ) res, chunkGo text cs ov fuel s = some res →
      ∀ c ∈ res, (c.length : ℤ) ≤ cs := by
  intro fuel
  induction fuel with
  | zero =>
    intro s res h c hc
    rw [chunkGo] at h
    split at h
    · exact absurd h (by simp)
    · obtain rfl : ([] : List (List Char)) = res := Option.some.inj h
      simp at hc
  | succ f ih =>
    intro s res h c hc
    rw [chunkGo] at h
    split at h
    · rw [Option.map_eq_some'] at h
      obtain ⟨rest, hrest, hres⟩ := h
      subst hres
      rcases List.mem_cons.mp hc with hc | hc
      · subst hc
        exact chunkStep_fst_length_le text cs ov s hcs
      · exact ih _ rest hrest c hc
    · obtain rfl : ([] : List (List Char)) = res := Option.some.inj h
      simp at hc

/-- Claim C10 (amended: for nonnegative `chunk_size`): whenever `chunk_text`
returns, every chunk in the result has length at most `chunk_size` — the
window slice takes at most `chunk_size` characters, boundary truncation only
shortens it, and stripping only shortens it further. -/
theorem chunk_text_chunks_le_size (text : List Char) (cs ov : ℤ) (fuel : ℕ)
    (res : List (List Char)) (hcs : 0 ≤ cs)
    (h : chunk_text text cs ov fuel = some res) :
    ∀ c ∈ res, (c.length : ℤ) ≤ cs := by
  rw [chunk_text] at h
  split at h
  · obtain rfl : ([] : List (List Char)) = res := Option.some.inj h
    intro c hc
    simp at hc
  · exact chunkGo_length_le text cs ov hcs fuel 0 res h

/-- Witness for C10: on `text = "ab"` (chunk_size 1, overlap 0) the run
returns `["a", "b"]` and the theorem bounds the first chunk. -/
theorem chunk_text_chunks_le_size_witness :
    ((('a' :: [] : List Char)).length : ℤ) ≤ 1 :=
  chunk_text_chunks_le_size abText 1 0 3 (('a' :: []) :: ('b' :: []) :: [])
    (by decide) (by decide) ('a' :: []) (by decide)

/-- Counterexample to C10 as stated (quantifying over every `chunkSize`): with
`text = "a"`, `chunk_size = -1`, `overlap = -3` the loop terminates — the
window `text[0:-1]` is empty, no boundary is found, and the cursor jumps to
`-1 - (-3) = 2 ≥ len` — returning one empty chunk, whose length 0 exceeds the
requested size `-1`. -/
theorem chunk_text_negative_size_counterexample :
    chunk_text ('a' :: []) (-1) (-3) 2 = some ([] :: []) ∧
    ¬ ((([] : List Char).length : ℤ) ≤ -1) := by decide

/-! ### The 70%-boundary rule -/

/-- Text for the 70%-boundary analysis: window `aaaaaaa.aa` (last period at
window index 7, exactly 70% of chunk size 10) followed by ten boundary-free
letters. -/
def t9Text : List Char :=
  'a' :: 'a' :: 'a' :: 'a' :: 'a' :: 'a' :: 'a' :: '.' :: 'a' :: 'a' :: List.replicate 10 'b'

/-- Claim C9 (amended: the source truncates exactly when the boundary position
strictly exceeds the binary64 value of `chunk_size * 0.7`; since that product
rounds to exactly `0.7 * chunk_size` for some sizes — e.g. `10 * 0.7 = 7.0` —
and strictly below it for others — e.g. `90 * 0.7 < 63` — a boundary at
exactly 70% is kept whole for the former and truncated for the latter): for
every window that does not reach the end of the text, with `bp` the position
of the last period or newline in the window, if `bp > chunk_size * 0.7` in
binary64 then the emitted chunk is the window truncated at the boundary
inclusive (a take of `bp + 1` characters, then stripped) and the effective end
is `start + bp + 1`; otherwise the full window is kept and the end stays
`start + chunk_size`. -/
theorem chunkStep_boundary_rule (text : List Char) (cs ov s bp : ℤ)
    (hwin : s + cs < (text.length : ℤ))
    (hbp : bp = max (rfind '.' (pySlice text s (s + cs))) (rfind '\n' (pySlice text s (s + cs)))) :
    (bpGt07 bp cs = true →
      chunkStep text cs ov s =
        (pyStrip ((pySlice text s (s + cs)).take (bp + 1).toNat), s + bp + 1 - ov)) ∧
    (bpGt07 bp cs = false →
      chunkStep text cs ov s = (pyStrip (pySlice text s (s + cs)), s + cs - ov)) := by
  have hbp1 : (0 : ℤ) ≤ bp + 1 := by
    have := rfind_ge_neg_one '.' (pySlice text s (s + cs))
    have hmax := le_max_left (rfind '.' (pySlice text s (s + cs)))
      (rfind '\n' (pySlice text s (s + cs)))
    omega
  constructor <;> intro hb
  · unfold chunkStep
    dsimp only
    rw [if_pos hwin, ← hbp, hb]
    simp only [if_true]
    rw [pySlice_zero_take _ _ hbp1]
  · unfold chunkStep
    dsimp only
    rw [if_pos hwin, ← hbp, hb]
    simp only [Bool.false_eq_true, if_false]

/-- Witness for C9 (amended): the rule instantiated on the concrete text
`t9Text` with `chunk_size = 10`, `overlap = 2`, cursor 0, boundary 7. -/
theorem chunkStep_boundary_rule_witness :
    (bpGt07 7 10 = true →
      chunkStep t9Text 10 2 0 =
        (pyStrip ((pySlice t9Text 0 (0 + 10)).take ((7 : ℤ) + 1).toNat), 0 + 7 + 1 - 2)) ∧
    (bpGt07 7 10 = false →
      chunkStep t9Text 10 2 0 = (pyStrip (pySlice t9Text 0 (0 + 10)), 0 + 10 - 2)) :=
  chunkStep_boundary_rule t9Text 10 2 0 7 (by decide) (by decide)

/-- Counterexample to C9 as stated: in the first window of `t9Text` with
`chunk_size = 10` the last boundary sits at index 7, which is at exactly 70%
of the chunk size (`10 * 7 = 7 * 10`), yet the emitted chunk is the whole
10-character window with effective end 10 (cursor `10 - 2 = 8`), not the
8-character truncation with end 8 that the at-or-beyond-70% rule requires:
CPython evaluates `7 > 10 * 0.7` as False because `10 * 0.7` rounds to exactly
`7.0`. -/
theorem chunk_boundary_at_70pct_not_truncated :
    max (rfind '.' (pySlice t9Text 0 10)) (rfind '\n' (pySlice t9Text 0 10)) = 7 ∧
    (10 : ℤ) * 7 = 7 * 10 ∧
    (0 + 10 : ℤ) < (t9Text.length : ℤ) ∧
    chunkStep t9Text 10 2 0 = (pySlice t9Text 0 10, 8) ∧
    (pySlice t9Text 0 10).length = 10 ∧
    chunkStep t9Text 10 2 0 ≠ (pyStrip ((pySlice t9Text 0 10).take 8), 6) := by
  decide

/-! ### Persistence (`process_pdfs` lines 170-178, `load_vectors` lines 190-205) -/

/-- The metadata dict stored for each chunk by `process_pdfs` (lines 164-168):
`{"source_file": ..., "chunk_index": ..., "total_chunks": ...}`. -/
structure ChunkMeta where
  source_file : String
  chunk_index : ℕ
  total_chunks : ℕ
deriving DecidableEq

/-- Pickled object graph, as far as this program shapes one: strings, a
two-dimensional numpy array (modelled by the element values it stores — for
float64 inputs `pickle` preserves them bit-for-bit), metadata records, lists,
and the three-entry dict `{"chunks", "embeddings", "metadata"}` that
`process_pdfs` builds. The scalar type `α` stands for the float64 values,
which this code only ever moves verbatim. -/
inductive PObj (α : Type) where
  | pstr (s : String)
  | parr (rows : List (List α))
  | pmeta (m : ChunkMeta)
  | plist (items : List (PObj α))
  | pdict3 (chunks embeddings metadata : PObj α)

/-- The `vector_data` dict of `process_pdfs` (lines 171-175) as a pickled
object: `{"chunks": all_chunks, "embeddings": np.array(all_embeddings),
"metadata": all_metadata}`. -/
def pickleVectorData {α : Type} (chunks : List String) (emb : List (List α))
    (md : List ChunkMeta) : PObj α :=
  .pdict3 (.plist (chunks.map .pstr)) (.parr emb) (.plist (md.map .pmeta))

/-- The persistence step of `process_pdfs` (lines 170-178): build the
`vector_data` dict and overwrite the vector file with its pickle, whatever the
file held before. -/
def process_pdfs_save {α : Type} (chunks : List String) (emb : List (List α))
    (md : List ChunkMeta) (_old : Option (PObj α)) : Option (PObj α) :=
  some (pickleVectorData chunks emb md)

/-- Decoder for a pickled chunk string. -/
def decodeStr {α : Type} : PObj α → Option String
  | .pstr s => some s
  | _ => none

/-- Decoder for a pickled metadata record. -/
def decodeMeta {α : Type} : PObj α → Option ChunkMeta
  | .pmeta m => some m
  | _ => none

/-- Decode a pickled list of chunk strings, failing on any other shape. -/
def decodeStrList {α : Type} : List (PObj α) → Option (List String)
  | [] => some []
  | x :: xs => do
    let s ← decodeStr x
    let rest ← decodeStrList xs
    return s :: rest

/-- Decode a pickled list of metadata records, failing on any other shape. -/
def decodeMetaList {α : Type} : List (PObj α) → Option (List ChunkMeta)
  | [] => some []
  | x :: xs => do
    let m ← decodeMeta x
    let rest ← decodeMetaList xs
    return m :: rest

/-- `PDFService.load_vectors` (lines 190-205): a missing file yields the empty
store `{"chunks": [], "embeddings": np.array([]), "metadata": []}` without
error; an existing file is unpickled back into the stored collection. -/
def load_vectors {α : Type} (file : Option (PObj α)) :
    Option (List String × List (List α) × List ChunkMeta) :=
  match file with
  | none => some ([], [], [])
  | some (.pdict3 (.plist cs) (.parr rows) (.plist ms)) => do
    let cs2 ← decodeStrList cs
    let ms2 ← decodeMetaList ms
    return (cs2, rows, ms2)
  | some _ => none

/-- Encoded chunk strings decode back to themselves. -/
theorem decodeStrList_map {α : Type} (l : List String) :
    decodeStrList (l.map (PObj.pstr (α := α))) = some l := by
  induction l with
  | nil => rfl
  | cons x xs ih => simp [decodeStrList, decodeStr, ih]

/-- Encoded metadata records decode back to themselves. -/
theorem decodeMetaList_map {α : Type} (l : List ChunkMeta) :
    decodeMetaList (l.map (PObj.pmeta (α := α))) = some l := by
  induction l with
  | nil => rfl
  | cons x xs ih => simp [decodeMetaList, decodeMeta, ih]

/-- Claim C7: persisting a collection and loading it back reproduces the
chunk texts, the embedding values verbatim (bit-exact for float64 scalars,
which the pipeline never transforms), and the metadata records:
`load(save(x)) = x`, whatever the file previously held. -/
theorem load_save_roundtrip {α : Type} (chunks : List String)
    (emb : List (List α)) (md : List ChunkMeta) (old : Option (PObj α)) :
    load_vectors (process_pdfs_save chunks emb md old) = some (chunks, emb, md) := by
  simp [process_pdfs_save, pickleVectorData, load_vectors, decodeStrList_map, decodeMetaList_map]

/-- Claim C8: loading when no vector file exists returns the empty store —
zero chunks, a zero-length embedding array, empty metadata — and never an
error (`load_vectors` checks `self.vector_file.exists()` first). -/
theorem load_vectors_missing_file {α : Type} :
    load_vectors (none : Option (PObj α)) = some ([], [], []) := rfl

/-! ### Atomicity of the persistence write (claim C3) -/

/-- File-system operations the persistence step performs on the vector file. -/
inductive FsOp where
  | openTrunc
  | writeAll (blob : List ℕ)
  | closeFile
deriving DecidableEq

/-- The operation sequence of `process_pdfs` lines 177-178:
`open(self.vector_file, 'wb')` truncates the target file in place,
`pickle.dump` writes the serialized bytes, and leaving the `with` block closes
the handle. No temporary file, no rename. -/
def process_pdfs_write_ops (blob : List ℕ) : List FsOp :=
  .openTrunc :: .writeAll blob :: .closeFile :: []

/-- Content of the vector file after one operation. -/
def applyFsOp (st : Option (List ℕ)) : FsOp → Option (List ℕ)
  | .openTrunc => some []
  | .writeAll blob => some blob
  | .closeFile => st

/-- Every content a crash can expose: the initial content and the content
after each successive operation. -/
def crashStates (init : Option (List ℕ)) : List FsOp → List (Option (List ℕ))
  | [] => init :: []
  | op :: ops => init :: crashStates (applyFsOp init op) ops

/-- Stated from the spec's words, for comparison with the source's write
sequence: a replace is atomic when a crash at any point leaves the file
holding either the previous valid store or the complete new one. -/
def atomicReplace (old new : List ℕ) (ops : List FsOp) : Prop :=
  ∀ st ∈ crashStates (some old) ops, st = some old ∨ st = some new

/-- Counterexample to C3 as stated: with previous store `[0]` and new store
`[1]`, the write sequence of `process_pdfs` is not atomic — after the
truncating open the file is empty, which is neither the old nor the new
store. -/
theorem process_pdfs_save_not_atomic :
    ¬ atomicReplace (0 :: []) (1 :: []) (process_pdfs_write_ops (1 :: [])) := by
  intro h
  have hmem : (some ([] : List ℕ)) ∈
      crashStates (some (0 :: [])) (process_pdfs_write_ops (1 :: [])) := by
    simp [crashStates, process_pdfs_write_ops, applyFsOp]
  rcases h (some []) hmem with h1 | h1 <;> simp at h1

/-- Claim C3 (amended: `process_pdfs` persists by truncating the vector file
in place and rewriting it — a plain open-write-close, not
write-to-temp-then-rename — so a crash between the truncating open and the
completed write leaves an empty file, which for any non-empty old and new
store is a corrupt state equal to neither). -/
theorem process_pdfs_save_mid_write_corrupt (old new : List ℕ)
    (hold : old ≠ []) (hnew : new ≠ []) :
    crashStates (some old) (process_pdfs_write_ops new) =
      some old :: some [] :: some new :: some new :: [] ∧
    ∃ st ∈ crashStates (some old) (process_pdfs_write_ops new),
      st ≠ some old ∧ st ≠ some new := by
  refine ⟨rfl, some [], ?_, ?_, ?_⟩
  · simp [crashStates, process_pdfs_write_ops, applyFsOp]
  · exact fun h => hold (Option.some.inj h).symm
  · exact fun h => hnew (Option.some.inj h).symm

/-- Witness for C3 (amended): instantiated at old store `[0]`, new store
`[1]`. -/
theorem process_pdfs_save_mid_write_corrupt_witness :
    crashStates (some (0 :: [])) (process_pdfs_write_ops (1 :: [])) =
      some (0 :: []) :: some [] :: some (1 :: []) :: some (1 :: []) :: [] ∧
    ∃ st ∈ crashStates (some (0 :: [])) (process_pdfs_write_ops (1 :: [])),
      st ≠ some (0 :: []) ∧ st ≠ some (1 :: []) :=
  process_pdfs_save_mid_write_corrupt (0 :: []) (1 :: []) (by decide) (by decide)

/-! ### Similarity search (spec-modelled) -/

/-- Modelled from the spec: the packaged `PDFService.search_vectors`
(src/powerpoint_maker_ddb/service/pdf_service.py) is absent from the snapshot
— only its callers and tests are present. Per spec 4.3 the routine computes
one cosine similarity per stored entry (`dot(a,b) / (||a||*||b||)`, 0 on a
zero-magnitude vector), ranks all results by similarity descending with ties
broken by insertion index ascending, and returns the first
`min(topK, store.size)` as records carrying chunk text, score, and metadata;
an empty store yields the empty sequence at once and `topK <= 0` yields the
empty sequence. A stored entry is modelled with its insertion index, chunk
text, metadata, and its similarity score for the query at hand; the score
lives in an arbitrary linear order, abstracting the externally computed
real-valued cosine. -/
structure ScoredEntry (α : Type) where
  idx : ℕ
  chunk : String
  sim : α
  mdata : ChunkMeta
deriving DecidableEq

/-- The ranking order of spec 4.3: higher similarity first, ties by insertion
index ascending. -/
def rankRel {α : Type} [LinearOrder α] (a b : ScoredEntry α) : Prop :=
  b.sim < a.sim ∨ (a.sim = b.sim ∧ a.idx ≤ b.idx)

instance {α : Type} [LinearOrder α] : DecidableRel (rankRel (α := α)) := fun a b => by
  unfold rankRel
  infer_instance

instance {α : Type} [LinearOrder α] : IsTotal (ScoredEntry α) rankRel where
  total a b := by
    unfold rankRel
    rcases lt_trichotomy a.sim b.sim with h | h | h
    · exact Or.inr (Or.inl h)
    · rcases le_total a.idx b.idx with h2 | h2
      · exact Or.inl (Or.inr ⟨h, h2⟩)
      · exact Or.inr (Or.inr ⟨h.symm, h2⟩)
    · exact Or.inl (Or.inl h)

instance {α : Type} [LinearOrder α] : IsTrans (ScoredEntry α) rankRel where
  trans a b c hab hbc := by
    unfold rankRel at hab hbc ⊢
    rcases hab with h1 | ⟨e1, i1⟩ <;> rcases hbc with h2 | ⟨e2, i2⟩
    · exact Or.inl (h2.trans h1)
    · exact Or.inl (by rw [← e2]; exact h1)
    · exact Or.inl (by rw [e1]; exact h2)
    · exact Or.inr ⟨e1.trans e2, i1.trans i2⟩

/-- Modelled from the spec (see `ScoredEntry`): `search_vectors(query, top_k,
vector_data)` — empty store short-circuits to the empty list; otherwise rank
every scored entry by `rankRel` (a stable sort realises the
insertion-index tie-break) and keep the first `min(topK, store.size)`
results, which is none when `topK <= 0`. -/
def search_vectors {α : Type} [LinearOrder α] (topK : ℤ)
    (store : List (ScoredEntry α)) : List (ScoredEntry α) :=
  if store.isEmpty then []
  else (List.insertionSort rankRel store).take (min topK (store.length : ℤ)).toNat

/-- Claim C5: for every non-empty store (of externally scored entries, any
linearly ordered score type) and every `topK`, the search returns exactly the
first `min(topK, store.size)` entries of a ranking of the whole store that is
sorted by similarity descending with ties broken by insertion index
ascending, and `topK ≤ 0` yields the empty sequence. -/
theorem search_vectors_ranking {α : Type} [LinearOrder α] (topK : ℤ)
    (store : List (ScoredEntry α)) (h : store ≠ []) :
    ∃ ranked : List (ScoredEntry α),
      List.Perm ranked store ∧
      List.Sorted rankRel ranked ∧
      search_vectors topK store = ranked.take (min topK (store.length : ℤ)).toNat ∧
      (search_vectors topK store).length = (min topK (store.length : ℤ)).toNat ∧
      (topK ≤ 0 → search_vectors topK store = []) := by
  refine ⟨List.insertionSort rankRel store, List.perm_insertionSort rankRel store,
    List.sorted_insertionSort rankRel store, ?_, ?_, ?_⟩
  · rw [search_vectors, if_neg (by simpa using h)]
  · rw [search_vectors, if_neg (by simpa using h)]
    rw [List.length_take, (List.perm_insertionSort rankRel store).length_eq]
    omega
  · intro hk
    rw [search_vectors, if_neg (by simpa using h)]
    have : (min topK (store.length : ℤ)).toNat = 0 := by omega
    rw [this, List.take_zero]

/-- A two-entry store with equal scores, so the tie is broken by insertion
order. -/
def sampleStore : List (ScoredEntry ℤ) :=
  ⟨0, "cat food", 5, ⟨"a.pdf", 0, 2⟩⟩ :: ⟨1, "cat toy", 5, ⟨"a.pdf", 1, 2⟩⟩ :: []

/-- Witness for C5: the ranking statement instantiated on `sampleStore` with
`topK = 1`. -/
theorem search_vectors_ranking_witness :
    ∃ ranked : List (ScoredEntry ℤ),
      List.Perm ranked sampleStore ∧
      List.Sorted rankRel ranked ∧
      search_vectors 1 sampleStore = ranked.take (min 1 (sampleStore.length : ℤ)).toNat ∧
      (search_vectors 1 sampleStore).length = (min 1 (sampleStore.length : ℤ)).toNat ∧
      ((1 : ℤ) ≤ 0 → search_vectors 1 sampleStore = []) :=
  search_vectors_ranking 1 sampleStore (List.cons_ne_nil _ _)

/-- Claim C6: searching an empty store returns the empty sequence at once,
for every `topK` (and, the scores being arbitrary, for every query), and
no error is involved. -/
theorem search_vectors_empty_store {α : Type} [LinearOrder α] (topK : ℤ) :
    search_vectors topK ([] : List (ScoredEntry α)) = [] := rfl

/-! ### Flat-layout `WorkflowService.search_topics` (claim C2) -/

/-- The method names defined by the flat-layout `PDFService` class body
(src/src/service/pdf_service.py): `search_vectors` is not among them. -/
def flatPDFServiceMethods : List String :=
  "__init__" :: "extract_text_from_pdf" :: "chunk_text" :: "create_embeddings" ::
    "process_pdfs" :: "load_vectors" :: []

/-- Python exceptions this model distinguishes. -/
inductive PyExc where
  | attributeError
  | valueError
deriving DecidableEq

/-- Attribute lookup `self.pdf_service.<name>` on the flat `PDFService`:
Python raises `AttributeError` when neither the instance nor the class defines
the name (the `__init__` of the flat class sets only `pdf_folder`,
`vector_file` and `client`). -/
def flatGetAttr (nm : String) : Except PyExc Unit :=
  if nm ∈ flatPDFServiceMethods then Except.ok () else Except.error PyExc.attributeError

/-- The per-topic loop of the flat `WorkflowService.search_topics`
(src/src/service/workflow_service.py lines 61-73) with `vector_data`
supplied: each iteration evaluates
`self.pdf_service.search_vectors(topic, top_k=top_k, vector_data=vector_data)`,
which begins with the attribute lookup; the lookup raises before any search
logic can run, so the `.ok` arm of the lookup (dead code against this class)
contributes an empty result list. The exception propagates out of the loop
exactly as in Python. -/
def search_topics (topics : List String) (top_k : ℤ)
    (vector_data : List (ScoredEntry ℤ)) :
    Except PyExc (List (String × List (ScoredEntry ℤ))) :=
  match topics with
  | [] => Except.ok []
  | t :: ts =>
    match flatGetAttr "search_vectors" with
    | Except.error e => Except.error e
    | Except.ok _ =>
      match search_topics ts top_k vector_data with
      | Except.error e => Except.error e
      | Except.ok rest => Except.ok ((t, []) :: rest)

/-- Claim C2 (amended: for every NON-EMPTY list of topics; an empty list never
reaches the method call and returns an empty mapping successfully): the flat
`WorkflowService.search_topics` raises `AttributeError` on its first
iteration, because the flat `PDFService` defines no `search_vectors`, so no
similarity search can succeed through this interface. -/
theorem search_topics_attribute_error (topics : List String) (top_k : ℤ)
    (vd : List (ScoredEntry ℤ)) (h : topics ≠ []) :
    search_topics topics top_k vd = Except.error PyExc.attributeError := by
  cases topics with
  | nil => exact absurd rfl h
  | cons t ts =>
    rw [search_topics]
    have h2 : flatGetAttr "search_vectors" = Except.error PyExc.attributeError := rfl
    rw [h2]

/-- Witness for C2 (amended): a single-topic search fails with
`AttributeError`. -/
theorem search_topics_attribute_error_witness :
    search_topics ("cats" :: []) 5 [] = Except.error PyExc.attributeError :=
  search_topics_attribute_error ("cats" :: []) 5 [] (List.cons_ne_nil _ _)

/-- Counterexample to C2 as stated (quantifying over every list of topics):
with no topics the loop body never runs, so `search_topics` returns an empty
mapping successfully instead of raising. -/
theorem search_topics_empty_topics_ok :
    search_topics [] 5 [] = Except.ok [] ∧
    search_topics [] 5 [] ≠ Except.error PyExc.attributeError := by
  exact ⟨rfl, fun h => Except.noConfusion h⟩
